import Mathlib

/-!
Verification development for the voxel-scene repository
(`src/components/MetropolisScene.tsx`, `src/components/SkyPodScene.tsx`,
`src/components/GafferScene.tsx`).

Times and coordinates are modelled by rationals (`ℚ`); browser floats do not
overflow at the magnitudes involved here and all constants of the source are
exactly representable.  External nondeterminism (`Math.random()`, `Date.now()`,
the camera position, the three.js raycaster) is passed in as explicit
environment data; trigonometric values that the code only ever compares are
translated to the equivalent rational comparisons, noted at each use.
-/

set_option autoImplicit false

/-! ## CyberAudioEngine (MetropolisScene.tsx, lines 31-311)

State of the `CyberAudioEngine` class.  An `AudioContext` is modelled by a
presence flag `hasCtx` (the constructor `init` also creates `masterGain` and
`reverbNode`, so a single flag stands for the three) together with its
running/suspended state.  The created oscillator/noise sources are counted in
`AudioGraph`.  `timerPending` models whether a `window.setTimeout` callback for
`scheduler` is currently pending (armed at the end of `scheduler`, cancelled by
`window.clearTimeout` in `stop`; the numeric id stored in the
`schedulerTimer` field is inert and is not modelled separately since
`setTimeout` ids are nonzero, so `stop`'s `if (this.schedulerTimer)` guard
passes exactly when a timer was ever armed). -/

inductive CtxState where
  | running
  | suspended
deriving DecidableEq, Repr

structure AudioGraph where
  droneCount : Nat
  rainNoiseCount : Nat
  trainRumbleCount : Nat
deriving DecidableEq, Repr

structure EngineState where
  hasCtx : Bool
  ctxState : CtxState
  isPlaying : Bool
  nextNoteTime : ℚ
  currentNote : Nat
  timerPending : Bool
  graph : AudioGraph
deriving DecidableEq, Repr

namespace CyberAudioEngine

/-- Field `tempo: number = 100` (never mutated). -/
def tempo : ℚ := 100

/-- Field `scheduleAheadTime: number = 0.1` (never mutated). -/
def scheduleAheadTime : ℚ := 1/10

/-- The note-time increment `0.25 * secondsPerBeat` of `nextNote`, where
`secondsPerBeat = 60.0 / tempo`. -/
def noteStep : ℚ := 1/4 * (60 / tempo)

/-- Initial field values of a freshly constructed `CyberAudioEngine`:
`ctx = null`, `isPlaying = false`, `nextNoteTime = 0`, `currentNote = 0`,
`schedulerTimer = null`. -/
def initial : EngineState :=
  { hasCtx := false
    ctxState := CtxState.running
    isPlaying := false
    nextNoteTime := 0
    currentNote := 0
    timerPending := false
    graph := { droneCount := 0, rainNoiseCount := 0, trainRumbleCount := 0 } }

/-- `init()` (lines 49-61): `if (this.ctx) return;` then creates the
`AudioContext` (whose initial running/suspended state is decided by the
browser, passed here as `startSuspended`) together with `masterGain` and
`reverbNode`. -/
def init (startSuspended : Bool) (st : EngineState) : EngineState :=
  if st.hasCtx then st
  else { st with
          hasCtx := true
          ctxState := if startSuspended then CtxState.suspended else CtxState.running }

/-- `nextNote()` (lines 249-254):
`nextNoteTime += 0.25 * (60.0 / tempo); currentNote++;
if (currentNote === 16) currentNote = 0;`. -/
def nextNote (st : EngineState) : EngineState :=
  let st := { st with nextNoteTime := st.nextNoteTime + noteStep }
  let c := st.currentNote + 1
  { st with currentNote := if c = 16 then 0 else c }

/-- Number of iterations of the `while` loop of `scheduler` (lines 242-245):
the loop exits as soon as `nextNoteTime`, raised by `noteStep` each pass,
reaches `now + scheduleAheadTime`, i.e. after exactly
`⌈(now + scheduleAheadTime - nextNoteTime) / noteStep⌉` passes. -/
def schedIters (now : ℚ) (st : EngineState) : Nat :=
  (⌈(now + scheduleAheadTime - st.nextNoteTime) / noteStep⌉).toNat

/-- The body of the `while` loop of `scheduler`, structurally recursive on the
iteration count: while `nextNoteTime < now + scheduleAheadTime`, call
`scheduleNote(currentNote, nextNoteTime)` (recorded in the returned list) and
then `nextNote()`. -/
def schedLoopFuel : Nat → ℚ → EngineState → EngineState × List (Nat × ℚ)
  | 0, _, st => (st, [])
  | n + 1, now, st =>
    if st.nextNoteTime < now + scheduleAheadTime then
      ((schedLoopFuel n now (nextNote st)).1,
        (st.currentNote, st.nextNoteTime) :: (schedLoopFuel n now (nextNote st)).2)
    else (st, [])

/-- The `while` loop of `scheduler` run to completion (`schedIters` is exactly
the number of passes before the guard fails, proved in
`schedLoopFuel_post` below). -/
def schedLoop (now : ℚ) (st : EngineState) : EngineState × List (Nat × ℚ) :=
  schedLoopFuel (schedIters now st) now st

/-- `scheduler()` (lines 240-247): `if (!this.isPlaying || !this.ctx) return;`
then the `while` loop, then re-arm the lookahead timer
(`this.schedulerTimer = window.setTimeout(...)`).  `now` stands for
`this.ctx.currentTime` at the start of the pass; the returned list holds the
`(beatNumber, time)` arguments of every `scheduleNote` call of the pass. -/
def scheduler (now : ℚ) (st : EngineState) : EngineState × List (Nat × ℚ) :=
  if ¬st.isPlaying ∨ ¬st.hasCtx then (st, [])
  else
    let r := schedLoop now st
    ({ r.1 with timerPending := true }, r.2)

/-- `start()` (lines 79-89): create the context if absent, resume it if
suspended, return early if already playing; otherwise set `isPlaying`, create
the drone / rain-noise / train-rumble sources (each of `startDrone`,
`startRainNoise`, `startTrainRumble` returns without effect when `ctx` is
absent), set `nextNoteTime = ctx.currentTime` and run a scheduler pass. -/
def start (now : ℚ) (startSuspended : Bool) (st : EngineState) :
    EngineState × List (Nat × ℚ) :=
  let st := if ¬st.hasCtx then init startSuspended st else st
  let st := if st.hasCtx ∧ st.ctxState = CtxState.suspended then
              { st with ctxState := CtxState.running } else st
  if st.isPlaying then (st, [])
  else
    let st := { st with isPlaying := true }
    let st := if st.hasCtx then
                { st with graph :=
                  { droneCount := st.graph.droneCount + 1
                    rainNoiseCount := st.graph.rainNoiseCount + 1
                    trainRumbleCount := st.graph.trainRumbleCount + 1 } }
              else st
    let st := if st.hasCtx then { st with nextNoteTime := now } else st
    scheduler now st

/-- `stop()` (lines 91-95): `isPlaying = false`, `ctx.suspend()` when a context
exists, `clearTimeout(schedulerTimer)` (cancelling any pending scheduler
callback). -/
def stop (st : EngineState) : EngineState :=
  let st := { st with isPlaying := false }
  let st := if st.hasCtx then { st with ctxState := CtxState.suspended } else st
  { st with timerPending := false }

/-- One externally triggered operation on the engine. -/
inductive Step : EngineState → EngineState → Prop where
  | init (startSuspended : Bool) {st : EngineState} :
      Step st (init startSuspended st)
  | start (now : ℚ) (startSuspended : Bool) {st : EngineState} :
      Step st (start now startSuspended st).1
  | stop {st : EngineState} : Step st (stop st)
  | scheduler (now : ℚ) {st : EngineState} :
      Step st (scheduler now st).1
  | nextNote {st : EngineState} : Step st (nextNote st)

/-- States reachable from a freshly constructed engine. -/
def Reachable (st : EngineState) : Prop :=
  Relation.ReflTransGen Step initial st

/-- A sequence of scheduler invocations (the pending-timer callbacks), at the
given sequence of context times; returns the final state and every note
scheduled along the way. -/
def runSchedulers : List ℚ → EngineState → EngineState × List (Nat × ℚ)
  | [], st => (st, [])
  | now :: rest, st =>
    ((runSchedulers rest (scheduler now st).1).1,
      (scheduler now st).2 ++ (runSchedulers rest (scheduler now st).1).2)

end CyberAudioEngine

/-! ## MetropolisScene animation loop (MetropolisScene.tsx, lines 543-965)

The per-frame mutable animation state of the `MetropolisScene` component:
`trainX`/`podX` (the closure variables of `animate`), the rain particle
positions (`rainRef`), the drone states (`dronesRef`), the explosion particle
list (`particlesRef`) and the laser line-segment position buffer
(`lasersRef`, a `Float32Array` of length `droneCount * 2 * 3 = 30`).
`Math.random()` draws, the value of `Math.sin(Date.now() * 0.005 + x)` and the
camera-to-train distance (the camera is user-controlled) are environment
inputs of each frame. -/

structure Vec3 where
  x : ℚ
  y : ℚ
  z : ℚ
deriving DecidableEq, Repr

instance : Add Vec3 := ⟨fun a b => ⟨a.x + b.x, a.y + b.y, a.z + b.z⟩⟩

/-- Squared Euclidean distance.  The code compares `a.distanceTo(b) < 80`;
since both sides are nonnegative this is equivalent to `distSq a b < 6400`,
which avoids the irrational square root. -/
def Vec3.distSq (a b : Vec3) : ℚ :=
  (a.x - b.x)^2 + (a.y - b.y)^2 + (a.z - b.z)^2

/-- One entry of `dronesRef` (`Drone` interface, lines 9-14) together with the
`visible` flag of its mesh. -/
structure Drone where
  pos : Vec3
  vel : Vec3
  isActive : Bool
  respawnTimer : ℚ
  visible : Bool
deriving DecidableEq, Repr

/-- One entry of `particlesRef` (`Particle` interface, lines 16-20) together
with the x/z rotation of its mesh. -/
structure Particle where
  pos : Vec3
  vel : Vec3
  rotX : ℚ
  rotZ : ℚ
  life : ℤ
deriving DecidableEq, Repr

structure MetroState where
  trainX : ℚ
  podX : ℚ
  rain : List Vec3
  drones : List Drone
  particles : List Particle
  lasers : List ℚ
deriving DecidableEq, Repr

namespace MetropolisScene

def trackStart : ℚ := -200
def trackEnd : ℚ := 200
def trainSpeed : ℚ := 2
def podSpeed : ℚ := 1/5
def trackHeight : ℚ := 40
def trackLength : ℚ := 500

/-- `getTrackOffset` (lines 325-330). -/
def getTrackOffset (x : ℚ) : ℚ :=
  if x < 50 then 0 else (x - 50)^2 / 300

/-- `trainX += trainSpeed; if (trainX > trackEnd) trainX = trackStart;`
(lines 772-773). -/
def advanceTrainX (x : ℚ) : ℚ :=
  if x + trainSpeed > trackEnd then trackStart else x + trainSpeed

/-- `podX += podSpeed; if (podX > trackEnd) podX = trackStart;`
(lines 774-775). -/
def advancePodX (x : ℚ) : ℚ :=
  if x + podSpeed > trackEnd then trackStart else x + podSpeed

/-- The gunship x position (lines 786-788): `trainX - 28`, wrapped up by the
track length when it falls below `trackStart`. -/
def gunshipActualX (trainX : ℚ) : ℚ :=
  if trainX - 28 < trackStart then trainX - 28 + (trackEnd - trackStart)
  else trainX - 28

/-- Train-volume computation (lines 832-839): `vol = (1 - dist/200)^3` inside
200 units, else 0. -/
def trainVolume (dist : ℚ) : ℚ :=
  if dist < 200 then (1 - dist / 200)^3 else 0

/-- Rain update (lines 845-848): every y coordinate falls by 2 and resets to
200 below -10 (x and z are never touched). -/
def stepRainDrop (v : Vec3) : Vec3 :=
  if v.y - 2 < -10 then { v with y := 200 } else { v with y := v.y - 2 }

/-- The `Math.random()` draws used to build one explosion particle
(lines 890-907): material choice (cosmetic), position jitter, velocity. -/
structure ParticleEnv where
  matRoll : ℚ
  jx : ℚ
  jy : ℚ
  jz : ℚ
  vx : ℚ
  vy : ℚ
  vz : ℚ
deriving DecidableEq, Repr

/-- One explosion particle spawned at a killed drone (lines 890-907): position
is the drone position jittered by `(random - 0.5) * 1` per axis, velocity is
`(random - 0.5) * 0.4` per axis, life is 60; a fresh mesh has zero rotation. -/
def mkExplosionParticle (pe : ParticleEnv) (dronePos : Vec3) : Particle :=
  { pos := ⟨dronePos.x + (pe.jx - 1/2) * 1, dronePos.y + (pe.jy - 1/2) * 1,
            dronePos.z + (pe.jz - 1/2) * 1⟩
    vel := ⟨(pe.vx - 1/2) * (2/5), (pe.vy - 1/2) * (2/5), (pe.vz - 1/2) * (2/5)⟩
    rotX := 0
    rotZ := 0
    life := 60 }

/-- The environment inputs of one drone's update: the spawn/velocity
`Math.random()` draws, the value of `Math.sin(Date.now() * 0.005 + pos.x)`,
the laser-fire and kill rolls, the respawn-delay roll, and the per-particle
draws. -/
structure DroneEnv where
  spawnRoll1 : ℚ
  spawnRoll2 : ℚ
  velRoll1 : ℚ
  velRoll2 : ℚ
  velRoll3 : ℚ
  bobSin : ℚ
  fireRoll : ℚ
  killRoll : ℚ
  respawnRoll : ℚ
  particleCfg : Nat → ParticleEnv

/-- One drone's update inside the unpaused branch (lines 855-911): inactive
drones count down `respawnTimer` and respawn once it reaches 0; active drones
move, bob, deactivate beyond `y > 60 ∨ z > 20`, and within squared distance
6400 (i.e. distance 80) of the gunship may fire a laser (pushing the two
segment endpoints) and with probability 0.4 be destroyed, spawning six
explosion particles.  Returns the updated drone, the pushed laser coordinates
and the spawned particles. -/
def stepDrone (gunPos : Vec3) (e : DroneEnv) (d : Drone) :
    Drone × List ℚ × List Particle :=
  if ¬d.isActive then
    let timer := d.respawnTimer - 1
    if timer ≤ 0 then
      ({ pos := ⟨(e.spawnRoll1 - 1/2) * trackLength, -5, -50 - e.spawnRoll2 * 50⟩
         vel := ⟨(e.velRoll1 - 1/2) * (1/10),
                 (1/10 + e.velRoll2 * (1/10)) * (1/2),
                 (1/5 + e.velRoll3 * (1/5)) * (1/2)⟩
         isActive := true
         respawnTimer := timer
         visible := true }, [], [])
    else
      ({ d with respawnTimer := timer, visible := false }, [], [])
  else
    let pos1 := d.pos + d.vel
    let pos2 : Vec3 := { pos1 with y := pos1.y + e.bobSin * (1/20) }
    let act1 := if pos2.y > 60 ∨ pos2.z > 20 then false else d.isActive
    let timer1 := if pos2.y > 60 ∨ pos2.z > 20 then (60 : ℚ) else d.respawnTimer
    let base : Drone :=
      { pos := pos2, vel := d.vel, isActive := act1,
        respawnTimer := timer1, visible := d.visible }
    if Vec3.distSq pos2 gunPos < 6400 ∧ e.fireRoll > 9/10 then
      if e.killRoll > 3/5 then
        ({ base with isActive := false, respawnTimer := 30 + e.respawnRoll * 50 },
          [gunPos.x, gunPos.y, gunPos.z, pos2.x, pos2.y, pos2.z],
          (List.range 6).map (fun i => mkExplosionParticle (e.particleCfg i) pos2))
      else
        (base, [gunPos.x, gunPos.y, gunPos.z, pos2.x, pos2.y, pos2.z], [])
    else
      (base, [], [])

/-- One explosion particle's update (lines 913-924): `life--`, gravity on the
velocity, move, spin; removed (`none`) when life runs out or it falls below
y = -10. -/
def stepParticle (p : Particle) : Option Particle :=
  if p.life - 1 ≤ 0 ∨ (p.pos + { p.vel with y := p.vel.y - 1/100 }).y < -10 then
    none
  else
    some { pos := p.pos + { p.vel with y := p.vel.y - 1/100 }
           vel := { p.vel with y := p.vel.y - 1/100 }
           rotX := p.rotX + 1/5
           rotZ := p.rotZ + 1/5
           life := p.life - 1 }

/-- Zero the laser position buffer, then overwrite its prefix with the pushed
laser coordinates (lines 926-931; indices beyond the buffer are dropped, as
out-of-range `Float32Array` writes are). -/
def writePrefix (buf vals : List ℚ) : List ℚ :=
  (List.range buf.length).map (fun i => vals.getD i 0)

/-- The per-frame environment: camera-to-train distance (the camera is
user-controlled) and the per-drone random draws. -/
structure FrameEnv where
  cameraDist : ℚ
  droneEnv : Nat → DroneEnv

structure FrameOut where
  volume : ℚ
deriving DecidableEq, Repr

/-- One pass of `animate` (lines 765-942).  When unpaused, the train and pod
advance and wrap, then rain, drones, explosion particles and the laser buffer
are updated; when paused, only the laser buffer is zeroed.  Mesh transforms,
camera handling and rendering are recomputed from this state every frame and
the train volume (returned in `FrameOut`) is set in both branches. -/
def frame (paused : Bool) (env : FrameEnv) (st : MetroState) :
    MetroState × FrameOut :=
  let trainX := if ¬paused then advanceTrainX st.trainX else st.trainX
  let podX := if ¬paused then advancePodX st.podX else st.podX
  let gunX := gunshipActualX trainX
  let gunPos : Vec3 := ⟨gunX + 3, trackHeight + 1 + 3, getTrackOffset gunX + 0⟩
  let vol := trainVolume env.cameraDist
  if ¬paused then
    let results := st.drones.enum.map
      (fun p => stepDrone gunPos (env.droneEnv p.1) p.2)
    ({ trainX := trainX
       podX := podX
       rain := st.rain.map stepRainDrop
       drones := results.map (fun r => r.1)
       particles := (st.particles ++ (results.map (fun r => r.2.2)).flatten).filterMap
         stepParticle
       lasers := writePrefix st.lasers ((results.map (fun r => r.2.1)).flatten) },
      { volume := vol })
  else
    ({ st with trainX := trainX, podX := podX,
               lasers := st.lasers.map (fun _ => 0) },
      { volume := vol })

/-- The initial values of the animation state set up by the scene effect:
`let trainX = 0; let podX = 40;` (rain, drone respawn timers and so on are
randomly initialised). -/
def MetroInit (st : MetroState) : Prop :=
  st.trainX = 0 ∧ st.podX = 40 ∧ st.particles = []

/-- One animation frame, under any pause flag and environment. -/
inductive MetroStep : MetroState → MetroState → Prop where
  | frame (paused : Bool) (env : FrameEnv) {st : MetroState} :
      MetroStep st (frame paused env st).1

/-- States reachable from some initial animation state. -/
def MetroReachable (st : MetroState) : Prop :=
  ∃ st0 : MetroState, MetroInit st0 ∧ Relation.ReflTransGen MetroStep st0 st

end MetropolisScene

/-! ## GafferScene pointer interaction (GafferScene.tsx, lines 196-243) -/

/-- A target of the click raycast: one of the logo voxels (`voxels` array) or
the background circle (`blackCircle`). -/
inductive ClickTarget where
  | voxel (idx : Nat)
  | blackCircle
deriving DecidableEq, Repr

namespace GafferScene

/-- `onPointerUp` (lines 205-224), given the position stored by
`onPointerDown` (lines 201-203), the release position, and the raycaster
result over `[...voxels, blackCircle]`.  The code computes
`distance = Math.sqrt(diffX² + diffY²)` and compares `distance < 5`; since
both sides are nonnegative this is translated to the equivalent
`diffX² + diffY² < 25`.  Returns whether
`window.open('https://gaffer-studio.ru', '_blank')` is called. -/
def onPointerUp (startX startY upX upY : ℚ)
    (intersects : List ClickTarget) : Bool :=
  if |upX - startX|^2 + |upY - startY|^2 < 25 then
    decide (intersects.length > 0)
  else false

end GafferScene

/-! ## SkyPodScene (SkyPodScene.tsx) -/

namespace SkyPodScene

/-- `riverYBase = -8` (line 242). -/
def riverYBase : ℚ := -8

structure Bullet where
  pos : Vec3
  vel : Vec3
  life : ℤ
deriving DecidableEq, Repr

/-- `spawnBullet` (lines 301-307): position `startPos`, velocity
`direction.multiplyScalar(2.0)`, `life: 60` (the `clone().normalize()` is only
used for the mesh orientation). -/
def spawnBullet (startPos direction : Vec3) : Bullet :=
  { pos := startPos
    vel := ⟨direction.x * 2, direction.y * 2, direction.z * 2⟩
    life := 60 }

/-- The outcome of one bullet's per-frame update. -/
inductive BulletFate where
  | hitBoat (debrisAt : Vec3)
  | splash (splashAt : Vec3)
  | expired
  | alive (b : Bullet)
deriving DecidableEq, Repr

/-- One bullet's update in the physics loop (lines 390-413): move by the
velocity, decrement life; then remove it on the first matching condition, in
source order: inside the boat hit-box while the boat is not sinking (spawning
a debris particle at the bullet position and costing the boat 5 health),
below the river base (spawning a splash particle), or at `life ≤ 0`. -/
def stepBullet (sinking : Bool) (boatPos : Vec3) (b : Bullet) : BulletFate :=
  if ¬sinking ∧ |(b.pos + b.vel).x - boatPos.x| < 5
      ∧ |(b.pos + b.vel).z - boatPos.z| < 3
      ∧ (b.pos + b.vel).y - boatPos.y > 0
      ∧ (b.pos + b.vel).y - boatPos.y < 8 then
    BulletFate.hitBoat (b.pos + b.vel)
  else if (b.pos + b.vel).y < riverYBase then
    BulletFate.splash (b.pos + b.vel)
  else if b.life - 1 ≤ 0 then
    BulletFate.expired
  else
    BulletFate.alive { pos := b.pos + b.vel, vel := b.vel, life := b.life - 1 }

/-- The health change a bullet's update applies to the boat
(`boatState.health -= 5` on a hit). -/
def healthDelta : BulletFate → ℤ
  | BulletFate.hitBoat _ => -5
  | _ => 0

/-- A bullet carried through successive frames, one `(isSinking, boatPos)`
pair per frame; `none` once the bullet has been removed. -/
def iterateBullet : List (Bool × Vec3) → Bullet → Option Bullet
  | [], b => some b
  | e :: rest, b =>
    match stepBullet e.1 e.2 b with
    | BulletFate.alive b2 => iterateBullet rest b2
    | _ => none

/-- The component resources handled by the `useEffect` cleanup: the scene's
mesh set (meshes identified by id), the `bullets` and `particles` arrays
(each entry identified by its mesh id), the pending animation-frame request
and the renderer. -/
structure Component where
  sceneMeshes : Finset Nat
  bullets : List Nat
  particles : List Nat
  framePending : Bool
  rendererDisposed : Bool
deriving DecidableEq

/-- The `useEffect` cleanup (lines 459-466): cancel the pending animation
frame, dispose the renderer, then `scene.remove` every mesh in `bullets` and
every mesh in `particles`. -/
def cleanup (c : Component) : Component :=
  { c with
    framePending := false
    rendererDisposed := true
    sceneMeshes := (c.bullets ++ c.particles).foldl Finset.erase c.sceneMeshes }

/-- The voxel-placement state of the scene builder: the `occupied` key set
(string keys `x,y,z` over the rounded integer coordinates, injectively
represented by the integer triple) and the meshes added to the group,
identified by grid coordinate. -/
structure BuildState where
  occupied : Finset (ℤ × ℤ × ℤ)
  meshes : List (ℤ × ℤ × ℤ)
deriving DecidableEq

/-- `addVoxelGeneric` (lines 102-114) at the integer coordinates used during
the occupancy-checked phase: when `checkOccupied` is set and the key is
already in `occupied`, return without adding a mesh; otherwise record the key
(when checking) and add a mesh at the coordinate. -/
def addVoxelGeneric (checkOccupied : Bool) (p : ℤ × ℤ × ℤ)
    (st : BuildState) : BuildState :=
  if checkOccupied then
    if p ∈ st.occupied then st
    else { occupied := insert p st.occupied, meshes := st.meshes ++ [p] }
  else { st with meshes := st.meshes ++ [p] }

/-- A sequence of checked placements performed after `occupied.clear()` (the
`createPylon(40); createPylon(-40)` phase: pylon columns, arms and cable
lines all pass `checkOccupied = true`), starting from the cleared occupancy
set and counting only the meshes added by this phase. -/
def buildChecked (ps : List (ℤ × ℤ × ℤ)) : BuildState :=
  ps.foldl (fun st p => addVoxelGeneric true p st)
    { occupied := ∅, meshes := [] }

end SkyPodScene

namespace CyberAudioEngine

theorem noteStep_pos : 0 < noteStep := by norm_num [noteStep, tempo]

theorem nextNote_time (st : EngineState) :
    (nextNote st).nextNoteTime = st.nextNoteTime + noteStep := rfl

theorem schedIters_nextNote (now : ℚ) (st : EngineState) :
    schedIters now (nextNote st) = (schedIters now st) - 1 := by
  have hstep : (noteStep : ℚ) ≠ 0 := ne_of_gt noteStep_pos
  have hdiv : (now + scheduleAheadTime - (st.nextNoteTime + noteStep)) / noteStep
      = (now + scheduleAheadTime - st.nextNoteTime) / noteStep - (1 : ℤ) := by
    push_cast
    field_simp
    ring
  simp only [schedIters, nextNote_time, hdiv, Int.ceil_sub_int]
  omega

theorem schedIters_pos (now : ℚ) (st : EngineState)
    (h : st.nextNoteTime < now + scheduleAheadTime) :
    0 < schedIters now st := by
  have h0 : (0 : ℚ) < (now + scheduleAheadTime - st.nextNoteTime) / noteStep :=
    div_pos (by linarith) noteStep_pos
  have := Int.ceil_pos.mpr h0
  simp only [schedIters]
  omega

theorem schedIters_eq_zero (now : ℚ) (st : EngineState)
    (h : ¬st.nextNoteTime < now + scheduleAheadTime) :
    schedIters now st = 0 := by
  have h0 : (now + scheduleAheadTime - st.nextNoteTime) / noteStep ≤ 0 :=
    div_nonpos_of_nonpos_of_nonneg (by linarith) (le_of_lt noteStep_pos)
  have := Int.ceil_le.mpr (by exact_mod_cast h0 : (now + scheduleAheadTime - st.nextNoteTime) / noteStep ≤ ((0 : ℤ) : ℚ))
  simp only [schedIters]
  omega

/-- With enough fuel the loop exits through its guard: the final
`nextNoteTime` has reached `now + scheduleAheadTime`. -/
theorem schedLoopFuel_post (n : Nat) (now : ℚ) (st : EngineState)
    (h : schedIters now st ≤ n) :
    now + scheduleAheadTime ≤ (schedLoopFuel n now st).1.nextNoteTime := by
  induction n generalizing st with
  | zero =>
      have h0 : schedIters now st = 0 := Nat.le_zero.mp h
      by_contra hc
      have := schedIters_pos now st (by simpa [schedLoopFuel] using hc)
      omega
  | succ n ih =>
      by_cases hg : st.nextNoteTime < now + scheduleAheadTime
      · have hlt := schedIters_nextNote now st
        have : schedIters now (nextNote st) ≤ n := by omega
        simpa [schedLoopFuel, hg] using ih (nextNote st) this
      · simpa [schedLoopFuel, hg] using le_of_not_lt hg

/-- With enough fuel, the loop's final state is preserved under `nextNote`'s
`currentNote` bound. -/
theorem schedLoopFuel_currentNote (n : Nat) (now : ℚ) (st : EngineState)
    (h : st.currentNote < 16) :
    (schedLoopFuel n now st).1.currentNote < 16 := by
  induction n generalizing st with
  | zero => simpa [schedLoopFuel] using h
  | succ n ih =>
      by_cases hg : st.nextNoteTime < now + scheduleAheadTime
      · have hn : (nextNote st).currentNote < 16 := by
          simp only [nextNote]
          split <;> omega
        simpa [schedLoopFuel, hg] using ih (nextNote st) hn
      · simpa [schedLoopFuel, hg] using h

/-- The times of the notes emitted by the loop form the arithmetic progression
starting at the entry `nextNoteTime` with increment `noteStep`, of length
`schedIters`. -/
theorem schedLoopFuel_times (n : Nat) (now : ℚ) (st : EngineState)
    (h : schedIters now st ≤ n) :
    (schedLoopFuel n now st).2.map Prod.snd
      = (List.range (schedIters now st)).map
          (fun k : ℕ => st.nextNoteTime + (k : ℚ) * noteStep) := by
  induction n generalizing st with
  | zero =>
      have h0 : schedIters now st = 0 := Nat.le_zero.mp h
      by_cases hg : st.nextNoteTime < now + scheduleAheadTime
      · exact absurd (schedIters_pos now st hg) (by omega)
      · simp [schedLoopFuel, h0]
  | succ n ih =>
      by_cases hg : st.nextNoteTime < now + scheduleAheadTime
      · have hpos := schedIters_pos now st hg
        have hnext := schedIters_nextNote now st
        have hle : schedIters now (nextNote st) ≤ n := by omega
        have ihx := ih (nextNote st) hle
        obtain ⟨m, hm⟩ : ∃ m, schedIters now st = m + 1 :=
          ⟨schedIters now st - 1, by omega⟩
        have hmnext : schedIters now (nextNote st) = m := by omega
        rw [hmnext, nextNote_time] at ihx
        have hrhs : (List.range (m + 1)).map
              (fun k : ℕ => st.nextNoteTime + (k : ℚ) * noteStep)
            = st.nextNoteTime
                :: (List.range m).map
                    (fun k : ℕ => st.nextNoteTime + noteStep + (k : ℚ) * noteStep) := by
          rw [List.range_succ_eq_map, List.map_cons, List.map_map]
          refine congrArg₂ _ (by norm_num) (List.map_congr_left ?_)
          intro k _
          simp only [Function.comp_apply, Nat.succ_eq_add_one]
          push_cast
          ring
        rw [hm, hrhs]
        simp only [schedLoopFuel, if_pos hg, List.map_cons]
        exact congrArg₂ _ rfl ihx
      · have h0 : schedIters now st = 0 := schedIters_eq_zero now st hg
        simp [schedLoopFuel, hg, h0]

theorem schedLoop_times (now : ℚ) (st : EngineState) :
    (schedLoop now st).2.map Prod.snd
      = (List.range (schedIters now st)).map
          (fun k : ℕ => st.nextNoteTime + (k : ℚ) * noteStep) :=
  schedLoopFuel_times (schedIters now st) now st le_rfl

theorem schedLoop_length (now : ℚ) (st : EngineState) :
    (schedLoop now st).2.length = schedIters now st := by
  have h := congrArg List.length (schedLoop_times now st)
  simpa using h

theorem schedLoop_get (now : ℚ) (st : EngineState) (i : ℕ)
    (h : i < (schedLoop now st).2.length) :
    ((schedLoop now st).2.get ⟨i, h⟩).2 = st.nextNoteTime + (i : ℚ) * noteStep := by
  have hi : i < schedIters now st := (schedLoop_length now st) ▸ h
  have h1 : ((schedLoop now st).2.map Prod.snd)[i]?
      = some (st.nextNoteTime + (i : ℚ) * noteStep) := by
    rw [schedLoop_times now st]
    simp [List.getElem?_map, List.getElem?_range, hi]
  have h2 : ((schedLoop now st).2.map Prod.snd)[i]?
      = some (((schedLoop now st).2.get ⟨i, h⟩).2) := by
    rw [List.getElem?_eq_getElem (by simpa using h)]
    simp [List.get_eq_getElem]
  rw [h2] at h1
  exact Option.some.inj h1

theorem schedLoop_mem_iff (now : ℚ) (st : EngineState) (t : ℚ) :
    (∃ c : ℕ, (c, t) ∈ (schedLoop now st).2)
      ↔ ((∃ k : ℕ, t = st.nextNoteTime + (k : ℚ) * noteStep)
          ∧ t < now + scheduleAheadTime) := by
  have hmem : (∃ c : ℕ, (c, t) ∈ (schedLoop now st).2)
      ↔ t ∈ (schedLoop now st).2.map Prod.snd := by
    constructor
    · rintro ⟨c, hc⟩
      exact List.mem_map.mpr ⟨(c, t), hc, rfl⟩
    · intro ht
      obtain ⟨⟨c, t0⟩, hmem, heq⟩ := List.mem_map.mp ht
      subst heq
      exact ⟨c, hmem⟩
  rw [hmem, schedLoop_times now st]
  simp only [List.mem_map, List.mem_range]
  constructor
  · rintro ⟨k, hk, rfl⟩
    refine ⟨⟨k, rfl⟩, ?_⟩
    have hcast : (k : ℤ) < ⌈(now + scheduleAheadTime - st.nextNoteTime) / noteStep⌉ := by
      have := hk
      simp only [schedIters] at this
      omega
    have := Int.lt_ceil.mp hcast
    have hk2 : (k : ℚ) * noteStep < now + scheduleAheadTime - st.nextNoteTime := by
      have := (lt_div_iff₀ noteStep_pos).mp (by exact_mod_cast this)
      linarith
    linarith
  · rintro ⟨⟨k, rfl⟩, hlt⟩
    refine ⟨k, ?_, rfl⟩
    have hk2 : (k : ℚ) < (now + scheduleAheadTime - st.nextNoteTime) / noteStep :=
      (lt_div_iff₀ noteStep_pos).mpr (by linarith)
    have hceil : (k : ℤ) < ⌈(now + scheduleAheadTime - st.nextNoteTime) / noteStep⌉ :=
      Int.lt_ceil.mpr (by exact_mod_cast hk2)
    simp only [schedIters]
    omega

end CyberAudioEngine

/-- C1: in `CyberAudioEngine`, a scheduler pass (taken while playing, with an
audio context) schedules exactly those pending notes whose time lies strictly
before `ctx.currentTime + scheduleAheadTime` (the 0.1-second window);
successive scheduled note times differ by exactly `0.25 * (60 / tempo)`
seconds, which is 0.15 s at the fixed tempo 100; and the while loop exits with
`nextNoteTime ≥ currentTime + scheduleAheadTime`. -/
theorem scheduler_pass_exact (now : ℚ) (st : EngineState)
    (hplay : st.isPlaying = true) (hctx : st.hasCtx = true) :
    (∀ t : ℚ,
        (∃ c : ℕ, (c, t) ∈ (CyberAudioEngine.scheduler now st).2)
          ↔ ((∃ k : ℕ, t = st.nextNoteTime + (k : ℚ) * (1/4 * (60 / CyberAudioEngine.tempo)))
              ∧ t < now + CyberAudioEngine.scheduleAheadTime))
    ∧ (∀ (i : ℕ) (h : i + 1 < (CyberAudioEngine.scheduler now st).2.length),
        ((CyberAudioEngine.scheduler now st).2.get ⟨i + 1, h⟩).2
          = ((CyberAudioEngine.scheduler now st).2.get ⟨i, Nat.lt_of_succ_lt h⟩).2
              + 1/4 * (60 / CyberAudioEngine.tempo))
    ∧ (1/4 * (60 / CyberAudioEngine.tempo) : ℚ) = 3/20
    ∧ CyberAudioEngine.tempo = 100
    ∧ now + CyberAudioEngine.scheduleAheadTime
        ≤ (CyberAudioEngine.scheduler now st).1.nextNoteTime := by
  have hsnd : (CyberAudioEngine.scheduler now st).2
      = (CyberAudioEngine.schedLoop now st).2 := by
    simp [CyberAudioEngine.scheduler, hplay, hctx]
  have hfst : (CyberAudioEngine.scheduler now st).1.nextNoteTime
      = (CyberAudioEngine.schedLoop now st).1.nextNoteTime := by
    simp [CyberAudioEngine.scheduler, hplay, hctx]
  refine ⟨?_, ?_, by norm_num [CyberAudioEngine.tempo], rfl, ?_⟩
  · intro t
    rw [hsnd]
    exact CyberAudioEngine.schedLoop_mem_iff now st t
  · intro i h
    have h2 : i + 1 < (CyberAudioEngine.schedLoop now st).2.length := by
      rw [← hsnd]; exact h
    have hget1 := CyberAudioEngine.schedLoop_get now st (i + 1) h2
    have hget0 := CyberAudioEngine.schedLoop_get now st i (Nat.lt_of_succ_lt h2)
    have hcast : ∀ (j : ℕ) (hj : j < (CyberAudioEngine.scheduler now st).2.length)
        (hj2 : j < (CyberAudioEngine.schedLoop now st).2.length),
        (CyberAudioEngine.scheduler now st).2.get ⟨j, hj⟩
          = (CyberAudioEngine.schedLoop now st).2.get ⟨j, hj2⟩ := by
      intro j hj hj2
      have a1 : ((CyberAudioEngine.scheduler now st).2)[j]?
          = ((CyberAudioEngine.schedLoop now st).2)[j]? := by rw [hsnd]
      rw [List.getElem?_eq_getElem hj, List.getElem?_eq_getElem hj2] at a1
      simpa [List.get_eq_getElem] using Option.some.inj a1
    rw [hcast (i + 1) h h2, hcast i (Nat.lt_of_succ_lt h) (Nat.lt_of_succ_lt h2),
      hget1, hget0]
    have hns : CyberAudioEngine.noteStep = 1/4 * (60 / CyberAudioEngine.tempo) := rfl
    rw [← hns]
    push_cast
    ring
  · rw [hfst]
    exact CyberAudioEngine.schedLoopFuel_post _ now st le_rfl

/-- Witness for `scheduler_pass_exact` at a concrete playing state. -/
theorem scheduler_pass_exact_witness :
    (({ hasCtx := true, ctxState := CtxState.running, isPlaying := true,
        nextNoteTime := 0, currentNote := 0, timerPending := false,
        graph := { droneCount := 1, rainNoiseCount := 1, trainRumbleCount := 1 } }
          : EngineState).isPlaying = true)
    ∧ (0 : ℚ) + CyberAudioEngine.scheduleAheadTime
        ≤ (CyberAudioEngine.scheduler 0
            { hasCtx := true, ctxState := CtxState.running, isPlaying := true,
              nextNoteTime := 0, currentNote := 0, timerPending := false,
              graph := { droneCount := 1, rainNoiseCount := 1,
                         trainRumbleCount := 1 } }).1.nextNoteTime :=
  ⟨rfl, (scheduler_pass_exact 0 _ rfl rfl).2.2.2.2⟩


namespace CyberAudioEngine

theorem init_currentNote (b : Bool) (st : EngineState) :
    (init b st).currentNote = st.currentNote := by
  by_cases hc : st.hasCtx = true <;> simp [init, hc]

theorem stop_currentNote (st : EngineState) :
    (stop st).currentNote = st.currentNote := by
  by_cases hc : st.hasCtx = true <;> simp [stop, hc]

theorem stop_isPlaying (st : EngineState) :
    (stop st).isPlaying = false := by
  by_cases hc : st.hasCtx = true <;> simp [stop, hc]

theorem stop_timerPending (st : EngineState) :
    (stop st).timerPending = false := by
  by_cases hc : st.hasCtx = true <;> simp [stop, hc]

theorem nextNote_currentNote (st : EngineState) :
    (nextNote st).currentNote
      = if st.currentNote + 1 = 16 then 0 else st.currentNote + 1 := rfl

theorem nextNote_currentNote_lt (st : EngineState) (h : st.currentNote < 16) :
    (nextNote st).currentNote < 16 := by
  rw [nextNote_currentNote]
  split <;> omega

/-- The loop body only touches `nextNoteTime` and `currentNote`. -/
theorem schedLoopFuel_fst_hasCtx (n : Nat) (now : ℚ) (st : EngineState) :
    (schedLoopFuel n now st).1.hasCtx = st.hasCtx := by
  induction n generalizing st with
  | zero => rfl
  | succ n ih =>
      by_cases hg : st.nextNoteTime < now + scheduleAheadTime
      · simpa [schedLoopFuel, hg] using ih (nextNote st)
      · simp [schedLoopFuel, hg]

theorem schedLoopFuel_fst_ctxState (n : Nat) (now : ℚ) (st : EngineState) :
    (schedLoopFuel n now st).1.ctxState = st.ctxState := by
  induction n generalizing st with
  | zero => rfl
  | succ n ih =>
      by_cases hg : st.nextNoteTime < now + scheduleAheadTime
      · simpa [schedLoopFuel, hg] using ih (nextNote st)
      · simp [schedLoopFuel, hg]

theorem schedLoopFuel_fst_isPlaying (n : Nat) (now : ℚ) (st : EngineState) :
    (schedLoopFuel n now st).1.isPlaying = st.isPlaying := by
  induction n generalizing st with
  | zero => rfl
  | succ n ih =>
      by_cases hg : st.nextNoteTime < now + scheduleAheadTime
      · simpa [schedLoopFuel, hg] using ih (nextNote st)
      · simp [schedLoopFuel, hg]

theorem scheduler_currentNote_lt (now : ℚ) (st : EngineState)
    (h : st.currentNote < 16) :
    (scheduler now st).1.currentNote < 16 := by
  by_cases hg : ¬st.isPlaying = true ∨ ¬st.hasCtx = true
  · simp only [scheduler, if_pos hg]
    exact h
  · simp only [scheduler, if_neg hg, schedLoop]
    exact schedLoopFuel_currentNote _ now st h

theorem start_result (now : ℚ) (b : Bool) (st : EngineState) :
    (start now b st).1.hasCtx = true
    ∧ (start now b st).1.ctxState = CtxState.running
    ∧ (start now b st).1.isPlaying = true := by
  by_cases hc : st.hasCtx = true <;> by_cases hp : st.isPlaying = true <;>
    cases b <;> cases hcs : st.ctxState <;>
      simp [start, init, scheduler, schedLoop, hc, hp, hcs,
        schedLoopFuel_fst_hasCtx, schedLoopFuel_fst_ctxState,
        schedLoopFuel_fst_isPlaying]

theorem start_currentNote_lt (now : ℚ) (b : Bool) (st : EngineState)
    (h : st.currentNote < 16) :
    (start now b st).1.currentNote < 16 := by
  by_cases hc : st.hasCtx = true <;> by_cases hp : st.isPlaying = true <;>
    cases b <;> cases hcs : st.ctxState <;>
      simp [start, init, scheduler, schedLoop, hc, hp, hcs] <;>
        first
          | exact h
          | exact schedLoopFuel_currentNote _ now _ (by simpa using h)

theorem reachable_currentNote_lt (st : EngineState) (h : Reachable st) :
    st.currentNote < 16 := by
  induction h with
  | refl => simp [initial]
  | tail hs step ih =>
      cases step with
      | init b => simpa [init_currentNote] using ih
      | start now b => exact start_currentNote_lt now b _ ih
      | stop => simpa [stop_currentNote] using ih
      | scheduler now => exact scheduler_currentNote_lt now _ ih
      | nextNote => exact nextNote_currentNote_lt _ ih

end CyberAudioEngine

/-- C2: `currentNote` is advanced by exactly one per scheduled note by
`nextNote`, wrapping to 0 when it reaches the pattern length 16; in every
state of `CyberAudioEngine` reachable from the initial state
(`currentNote = 0`) via init/start/scheduler/nextNote (and stop) steps,
`currentNote` lies in `{0, ..., 15}`. -/
theorem currentNote_invariant (st : EngineState)
    (h : CyberAudioEngine.Reachable st) :
    ((CyberAudioEngine.nextNote st).currentNote
        = if st.currentNote + 1 = 16 then 0 else st.currentNote + 1)
    ∧ st.currentNote < 16 :=
  ⟨CyberAudioEngine.nextNote_currentNote st,
    CyberAudioEngine.reachable_currentNote_lt st h⟩

/-- Witness for `currentNote_invariant` at the initial state. -/
theorem currentNote_invariant_witness :
    CyberAudioEngine.Reachable CyberAudioEngine.initial
    ∧ CyberAudioEngine.initial.currentNote < 16 :=
  ⟨Relation.ReflTransGen.refl,
    (currentNote_invariant CyberAudioEngine.initial Relation.ReflTransGen.refl).2⟩

/-- C8: `stop()` sets `isPlaying` to false, suspends the audio context and
clears the pending scheduler timer; every scheduler invocation taken while
`isPlaying` is false returns without scheduling any note, without changing the
state and without re-arming the timer; hence any sequence of scheduler
invocations after `stop()` (no intervening `start()`) schedules no note. -/
theorem stop_halts_scheduling (st : EngineState) (hctx : st.hasCtx = true) :
    ((CyberAudioEngine.stop st).isPlaying = false)
    ∧ ((CyberAudioEngine.stop st).ctxState = CtxState.suspended)
    ∧ ((CyberAudioEngine.stop st).timerPending = false)
    ∧ (∀ (st2 : EngineState) (now : ℚ), st2.isPlaying = false →
        CyberAudioEngine.scheduler now st2 = (st2, []))
    ∧ (∀ times : List ℚ,
        CyberAudioEngine.runSchedulers times (CyberAudioEngine.stop st)
          = (CyberAudioEngine.stop st, [])) := by
  have hnotPlaying : ∀ (st2 : EngineState) (now : ℚ), st2.isPlaying = false →
      CyberAudioEngine.scheduler now st2 = (st2, []) := by
    intro st2 now h2
    simp [CyberAudioEngine.scheduler, h2]
  refine ⟨CyberAudioEngine.stop_isPlaying st, ?_,
    CyberAudioEngine.stop_timerPending st, hnotPlaying, ?_⟩
  · simp [CyberAudioEngine.stop, hctx]
  · intro times
    induction times with
    | nil => rfl
    | cons now rest ih =>
        simp only [CyberAudioEngine.runSchedulers,
          hnotPlaying (CyberAudioEngine.stop st) now
            (CyberAudioEngine.stop_isPlaying st), ih]
        simp

/-- Witness for `stop_halts_scheduling` at a concrete state with a context. -/
theorem stop_halts_scheduling_witness :
    (({ hasCtx := true, ctxState := CtxState.running, isPlaying := true,
        nextNoteTime := 0, currentNote := 0, timerPending := true,
        graph := { droneCount := 1, rainNoiseCount := 1, trainRumbleCount := 1 } }
          : EngineState).hasCtx = true)
    ∧ (CyberAudioEngine.runSchedulers [0, 1, 2]
        (CyberAudioEngine.stop
          { hasCtx := true, ctxState := CtxState.running, isPlaying := true,
            nextNoteTime := 0, currentNote := 0, timerPending := true,
            graph := { droneCount := 1, rainNoiseCount := 1,
                       trainRumbleCount := 1 } })).2 = [] :=
  ⟨rfl, by rw [(stop_halts_scheduling _ rfl).2.2.2.2 [0, 1, 2]]⟩

namespace CyberAudioEngine

/-- In every reachable state, playing implies the context exists and is
running (`start` resumes a suspended context before setting `isPlaying`, and
`stop` clears `isPlaying` when suspending). -/
theorem reachable_playing_ctx (st : EngineState) (h : Reachable st) :
    st.isPlaying = true → st.hasCtx = true ∧ st.ctxState = CtxState.running := by
  induction h with
  | refl => intro hp; simp [initial] at hp
  | tail hs step ih =>
      cases step with
      | init b =>
          rename_i st'
          intro hp
          by_cases hc : st'.hasCtx = true
          · rw [show init b st' = st' from by simp [init, hc]] at hp ⊢
            exact ih hp
          · have hp' : st'.isPlaying = true := by
              simpa [init, hc] using hp
            exact absurd (ih hp').1 hc
      | start now b =>
          intro _
          exact ⟨(start_result now b _).1, (start_result now b _).2.1⟩
      | stop =>
          rename_i st'
          intro hp
          rw [stop_isPlaying st'] at hp
          exact absurd hp (by simp)
      | scheduler now =>
          rename_i st'
          intro hp
          by_cases hg : ¬st'.isPlaying = true ∨ ¬st'.hasCtx = true
          · rw [show (scheduler now st').1 = st' from by
              simp only [scheduler, if_pos hg]] at hp ⊢
            exact ih hp
          · simp only [scheduler, if_neg hg, schedLoop]
            push_neg at hg
            constructor
            · rw [schedLoopFuel_fst_hasCtx]
              exact hg.2
            · rw [schedLoopFuel_fst_ctxState]
              exact (ih hg.1).2
      | nextNote =>
          rename_i st'
          intro hp
          exact ih hp

end CyberAudioEngine

/-- C10: `start()` is idempotent while playing: in any reachable state with
`isPlaying = true` (where the context necessarily exists and is running),
`start()` returns early — no new drone / rain-noise / train-rumble source is
created, no second scheduler pass runs, no note is scheduled, and the engine
state (`isPlaying`, `nextNoteTime`, `currentNote`, audio graph) is
unchanged. -/
theorem start_idempotent_while_playing (st : EngineState)
    (h : CyberAudioEngine.Reachable st) (hp : st.isPlaying = true)
    (now : ℚ) (b : Bool) :
    CyberAudioEngine.start now b st = (st, []) := by
  obtain ⟨hctx, hrun⟩ := CyberAudioEngine.reachable_playing_ctx st h hp
  simp [CyberAudioEngine.start, hctx, hrun, hp]

/-- Witness for `start_idempotent_while_playing` at the state reached by a
single `start` from the initial state. -/
theorem start_idempotent_while_playing_witness :
    CyberAudioEngine.Reachable
      (CyberAudioEngine.start 0 false CyberAudioEngine.initial).1
    ∧ (CyberAudioEngine.start 0 false CyberAudioEngine.initial).1.isPlaying
        = true
    ∧ CyberAudioEngine.start 1 false
        (CyberAudioEngine.start 0 false CyberAudioEngine.initial).1
        = ((CyberAudioEngine.start 0 false CyberAudioEngine.initial).1, []) := by
  have hr : CyberAudioEngine.Reachable
      (CyberAudioEngine.start 0 false CyberAudioEngine.initial).1 :=
    Relation.ReflTransGen.single (CyberAudioEngine.Step.start 0 false)
  have hp := (CyberAudioEngine.start_result 0 false CyberAudioEngine.initial).2.2
  exact ⟨hr, hp, start_idempotent_while_playing _ hr hp 1 false⟩

namespace MetropolisScene

theorem advanceTrainX_mem (x : ℚ) (h1 : trackStart ≤ x) (h2 : x ≤ trackEnd) :
    trackStart ≤ advanceTrainX x ∧ advanceTrainX x ≤ trackEnd := by
  unfold advanceTrainX trainSpeed trackStart trackEnd at *
  split <;> constructor <;> linarith

theorem advancePodX_mem (x : ℚ) (h1 : trackStart ≤ x) (h2 : x ≤ trackEnd) :
    trackStart ≤ advancePodX x ∧ advancePodX x ≤ trackEnd := by
  unfold advancePodX podSpeed trackStart trackEnd at *
  split <;> constructor <;> linarith

theorem gunshipActualX_mem (t : ℚ) (h1 : trackStart ≤ t) (h2 : t ≤ trackEnd) :
    trackStart ≤ gunshipActualX t ∧ gunshipActualX t ≤ trackEnd := by
  unfold gunshipActualX trackStart trackEnd at *
  split <;> constructor <;> linarith

theorem frame_trainX (p : Bool) (env : FrameEnv) (st : MetroState) :
    (frame p env st).1.trainX
      = if p then st.trainX else advanceTrainX st.trainX := by
  cases p <;> simp [frame]

theorem frame_podX (p : Bool) (env : FrameEnv) (st : MetroState) :
    (frame p env st).1.podX
      = if p then st.podX else advancePodX st.podX := by
  cases p <;> simp [frame]

theorem metroReachable_bounds (st : MetroState) (h : MetroReachable st) :
    (trackStart ≤ st.trainX ∧ st.trainX ≤ trackEnd)
    ∧ (trackStart ≤ st.podX ∧ st.podX ≤ trackEnd) := by
  obtain ⟨st0, hinit, hsteps⟩ := h
  induction hsteps with
  | refl =>
      rw [hinit.1, hinit.2.1]
      norm_num [trackStart, trackEnd]
  | tail hs step ih =>
      obtain ⟨⟨ha, hb⟩, hc, hd⟩ := ih
      cases step with
      | frame p env =>
          rw [frame_trainX, frame_podX]
          cases p
          · simpa using ⟨advanceTrainX_mem _ ha hb, advancePodX_mem _ hc hd⟩
          · simpa using ⟨⟨ha, hb⟩, hc, hd⟩

end MetropolisScene

/-- C3: in every reachable state of the animation loop (in particular after
every unpaused update), `trainX` and `podX` lie within
`[trackStart, trackEnd] = [-200, 200]`, each wrapping to `trackStart` when the
advance would exceed `trackEnd`, and the gunship x position (`trainX - 28`,
raised by the track length when below `trackStart`) also lies in
`[-200, 200]`. -/
theorem track_positions_in_range (st : MetroState)
    (h : MetropolisScene.MetroReachable st) :
    (MetropolisScene.trackStart = -200 ∧ MetropolisScene.trackEnd = 200)
    ∧ (-200 ≤ st.trainX ∧ st.trainX ≤ 200)
    ∧ (-200 ≤ st.podX ∧ st.podX ≤ 200)
    ∧ (-200 ≤ MetropolisScene.gunshipActualX st.trainX
        ∧ MetropolisScene.gunshipActualX st.trainX ≤ 200)
    ∧ (st.trainX + MetropolisScene.trainSpeed > MetropolisScene.trackEnd →
        MetropolisScene.advanceTrainX st.trainX = MetropolisScene.trackStart)
    ∧ (st.podX + MetropolisScene.podSpeed > MetropolisScene.trackEnd →
        MetropolisScene.advancePodX st.podX = MetropolisScene.trackStart) := by
  obtain ⟨⟨ha, hb⟩, hc, hd⟩ := MetropolisScene.metroReachable_bounds st h
  have hs : MetropolisScene.trackStart = -200 := rfl
  have he : MetropolisScene.trackEnd = 200 := rfl
  simp only [hs, he] at ha hb hc hd
  refine ⟨⟨rfl, rfl⟩, ⟨ha, hb⟩, ⟨hc, hd⟩, ?_, ?_, ?_⟩
  · have := MetropolisScene.gunshipActualX_mem st.trainX (by rw [hs]; exact ha)
      (by rw [he]; exact hb)
    rwa [hs, he] at this
  · intro hover
    simp [MetropolisScene.advanceTrainX, hover]
  · intro hover
    simp [MetropolisScene.advancePodX, hover]

/-- Witness for `track_positions_in_range` at the initial animation state. -/
theorem track_positions_in_range_witness :
    MetropolisScene.MetroReachable
      { trainX := 0, podX := 40, rain := [], drones := [], particles := [],
        lasers := List.replicate 30 0 }
    ∧ (-200 ≤ ({ trainX := 0, podX := 40, rain := [], drones := [],
                 particles := [], lasers := List.replicate 30 0 }
          : MetroState).trainX
        ∧ ({ trainX := 0, podX := 40, rain := [], drones := [],
             particles := [], lasers := List.replicate 30 0 }
          : MetroState).trainX ≤ 200) := by
  have hreach : MetropolisScene.MetroReachable
      ({ trainX := 0, podX := 40, rain := [], drones := [], particles := [],
         lasers := List.replicate 30 0 } : MetroState) :=
    ⟨_, ⟨rfl, rfl, rfl⟩, Relation.ReflTransGen.refl⟩
  exact ⟨hreach, (track_positions_in_range _ hreach).2.1⟩

/-- C4: an animation step taken while `isPaused` is true leaves `trainX`,
`podX`, the rain positions, every drone's state and the explosion particle
list unchanged; the laser buffer is still cleared and the train volume still
computed (camera handling and rendering are stateless re-computations). -/
theorem paused_frame_preserves_state (env : MetropolisScene.FrameEnv)
    (st : MetroState) :
    (MetropolisScene.frame true env st).1.trainX = st.trainX
    ∧ (MetropolisScene.frame true env st).1.podX = st.podX
    ∧ (MetropolisScene.frame true env st).1.rain = st.rain
    ∧ (MetropolisScene.frame true env st).1.drones = st.drones
    ∧ (MetropolisScene.frame true env st).1.particles = st.particles
    ∧ (MetropolisScene.frame true env st).1.lasers
        = List.replicate st.lasers.length 0
    ∧ (MetropolisScene.frame true env st).2.volume
        = MetropolisScene.trainVolume env.cameraDist := by
  refine ⟨rfl, rfl, rfl, rfl, rfl, ?_, rfl⟩
  show st.lasers.map (fun _ => (0 : ℚ)) = List.replicate st.lasers.length 0
  simp

/-- C5: the pointer-up handler of `GafferScene` opens the external URL if and
only if the release point is less than 5 pixels (Euclidean distance) from the
pointer-down point and the camera ray through the release point hits at least
one logo voxel or the background circle; in particular a drag of 5 pixels or
more never opens the URL. -/
theorem click_opens_iff (startX startY upX upY : ℚ)
    (intersects : List ClickTarget) :
    (GafferScene.onPointerUp startX startY upX upY intersects = true
      ↔ (Real.sqrt (((upX : ℝ) - (startX : ℝ))^2 + ((upY : ℝ) - (startY : ℝ))^2) < 5
          ∧ intersects ≠ []))
    ∧ (5 ≤ Real.sqrt (((upX : ℝ) - (startX : ℝ))^2 + ((upY : ℝ) - (startY : ℝ))^2) →
        GafferScene.onPointerUp startX startY upX upY intersects = false) := by
  have hcast : (((upX - startX)^2 + (upY - startY)^2 : ℚ) : ℝ)
      = ((upX : ℝ) - (startX : ℝ))^2 + ((upY : ℝ) - (startY : ℝ))^2 := by
    push_cast
    ring
  have hkey : Real.sqrt (((upX : ℝ) - (startX : ℝ))^2 + ((upY : ℝ) - (startY : ℝ))^2) < 5
      ↔ ((upX - startX)^2 + (upY - startY)^2 : ℚ) < 25 := by
    rw [Real.sqrt_lt' (by norm_num : (0:ℝ) < 5), ← hcast,
      show ((5:ℝ)^2) = ((25:ℚ):ℝ) from by norm_num]
    exact Rat.cast_lt
  have hfn : GafferScene.onPointerUp startX startY upX upY intersects
      = (if ((upX - startX)^2 + (upY - startY)^2 : ℚ) < 25
          then decide (intersects.length > 0) else false) := by
    unfold GafferScene.onPointerUp
    rw [sq_abs, sq_abs]
  by_cases hlt : ((upX - startX)^2 + (upY - startY)^2 : ℚ) < 25
  · rw [hfn, if_pos hlt]
    constructor
    · constructor
      · intro hd
        refine ⟨hkey.mpr hlt, ?_⟩
        have := of_decide_eq_true hd
        exact List.ne_nil_of_length_pos this
      · rintro ⟨_, hne⟩
        exact decide_eq_true (List.length_pos.mpr hne)
    · intro hge
      exact absurd (hkey.mpr hlt) (not_lt.mpr hge)
  · rw [hfn, if_neg hlt]
    refine ⟨?_, fun _ => rfl⟩
    constructor
    · intro h
      exact absurd h (by simp)
    · rintro ⟨hs, _⟩
      exact absurd (hkey.mp hs) hlt

/-- Witness for `click_opens_iff`: a 3-pixel drag released over the background
circle opens the URL. -/
theorem click_opens_iff_witness :
    GafferScene.onPointerUp 0 0 3 0 [ClickTarget.blackCircle] = true := by
  refine (click_opens_iff 0 0 3 0 [ClickTarget.blackCircle]).1.mpr ⟨?_, by simp⟩
  rw [Real.sqrt_lt' (by norm_num : (0:ℝ) < 5)]
  norm_num

namespace SkyPodScene

theorem stepBullet_alive (sinking : Bool) (boatPos : Vec3) (b b2 : Bullet)
    (h : stepBullet sinking boatPos b = BulletFate.alive b2) :
    b2.pos = b.pos + b.vel ∧ b2.vel = b.vel ∧ b2.life = b.life - 1
    ∧ 0 < b2.life := by
  unfold stepBullet at h
  split at h
  · exact absurd h (by simp)
  · split at h
    · exact absurd h (by simp)
    · split at h
      · exact absurd h (by simp)
      · rename_i hlife
        cases h
        refine ⟨rfl, rfl, rfl, ?_⟩
        show (0:ℤ) < b.life - 1
        omega

theorem stepBullet_removed_iff (sinking : Bool) (boatPos : Vec3) (b : Bullet) :
    (∀ b2, stepBullet sinking boatPos b ≠ BulletFate.alive b2)
      ↔ ((sinking = false
            ∧ |(b.pos + b.vel).x - boatPos.x| < 5
            ∧ |(b.pos + b.vel).z - boatPos.z| < 3
            ∧ (b.pos + b.vel).y - boatPos.y > 0
            ∧ (b.pos + b.vel).y - boatPos.y < 8)
          ∨ (b.pos + b.vel).y < riverYBase
          ∨ b.life - 1 ≤ 0) := by
  unfold stepBullet
  constructor
  · intro h
    by_cases h1 : ¬sinking = true ∧ |(b.pos + b.vel).x - boatPos.x| < 5
        ∧ |(b.pos + b.vel).z - boatPos.z| < 3
        ∧ (b.pos + b.vel).y - boatPos.y > 0 ∧ (b.pos + b.vel).y - boatPos.y < 8
    · left
      simpa [Bool.not_eq_true] using h1
    · by_cases h2 : (b.pos + b.vel).y < riverYBase
      · right; left; exact h2
      · by_cases h3 : b.life - 1 ≤ 0
        · right; right; exact h3
        · exfalso
          apply h { pos := b.pos + b.vel, vel := b.vel, life := b.life - 1 }
          simp only [if_neg h1, if_neg h2, if_neg h3]
  · intro h b2
    rcases h with h1 | h2 | h3
    · rw [if_pos (by simpa [Bool.not_eq_true] using h1)]
      simp
    · by_cases h1 : ¬sinking = true ∧ |(b.pos + b.vel).x - boatPos.x| < 5
          ∧ |(b.pos + b.vel).z - boatPos.z| < 3
          ∧ (b.pos + b.vel).y - boatPos.y > 0 ∧ (b.pos + b.vel).y - boatPos.y < 8
      · rw [if_pos h1]; simp
      · rw [if_neg h1, if_pos h2]; simp
    · by_cases h1 : ¬sinking = true ∧ |(b.pos + b.vel).x - boatPos.x| < 5
          ∧ |(b.pos + b.vel).z - boatPos.z| < 3
          ∧ (b.pos + b.vel).y - boatPos.y > 0 ∧ (b.pos + b.vel).y - boatPos.y < 8
      · rw [if_pos h1]; simp
      · by_cases h2 : (b.pos + b.vel).y < riverYBase
        · rw [if_neg h1, if_pos h2]; simp
        · rw [if_neg h1, if_neg h2, if_pos h3]; simp

theorem iterateBullet_none (envs : List (Bool × Vec3)) (b : Bullet)
    (h1 : 1 ≤ b.life) (h2 : b.life ≤ (envs.length : ℤ)) :
    iterateBullet envs b = none := by
  induction envs generalizing b with
  | nil => simp at h2; omega
  | cons e rest ih =>
      unfold iterateBullet
      cases hstep : stepBullet e.1 e.2 b with
      | alive b2 =>
          obtain ⟨_, _, hl, hpos⟩ := stepBullet_alive e.1 e.2 b b2 hstep
          simp only []
          apply ih b2 (by omega)
          simp only [List.length_cons] at h2
          push_cast at h2 ⊢
          omega
      | hitBoat p => rfl
      | splash p => rfl
      | expired => rfl

end SkyPodScene

/-- C6: a spawned bullet starts with `life = 60`; each frame it moves by its
fixed velocity vector and its life counter drops by one; it is removed exactly
when it enters the boat's hit-box while the boat is not sinking (costing the
boat 5 health and spawning a debris particle at the impact point), or its y
position drops below the river base, or its life reaches 0 — so no bullet
survives more than 60 frames. -/
theorem bullet_lifecycle :
    (∀ s d : Vec3, (SkyPodScene.spawnBullet s d).life = 60)
    ∧ (∀ (sinking : Bool) (boatPos : Vec3) (b b2 : SkyPodScene.Bullet),
        SkyPodScene.stepBullet sinking boatPos b = SkyPodScene.BulletFate.alive b2 →
          b2.pos = b.pos + b.vel ∧ b2.vel = b.vel ∧ b2.life = b.life - 1)
    ∧ (∀ (sinking : Bool) (boatPos : Vec3) (b : SkyPodScene.Bullet),
        (∀ b2, SkyPodScene.stepBullet sinking boatPos b
            ≠ SkyPodScene.BulletFate.alive b2)
          ↔ ((sinking = false
                ∧ |(b.pos + b.vel).x - boatPos.x| < 5
                ∧ |(b.pos + b.vel).z - boatPos.z| < 3
                ∧ (b.pos + b.vel).y - boatPos.y > 0
                ∧ (b.pos + b.vel).y - boatPos.y < 8)
              ∨ (b.pos + b.vel).y < SkyPodScene.riverYBase
              ∨ b.life - 1 ≤ 0))
    ∧ (∀ (sinking : Bool) (boatPos : Vec3) (b : SkyPodScene.Bullet) (p : Vec3),
        SkyPodScene.stepBullet sinking boatPos b = SkyPodScene.BulletFate.hitBoat p →
          p = b.pos + b.vel
          ∧ SkyPodScene.healthDelta (SkyPodScene.BulletFate.hitBoat p) = -5)
    ∧ (∀ (envs : List (Bool × Vec3)) (s d : Vec3), 60 ≤ envs.length →
        SkyPodScene.iterateBullet envs (SkyPodScene.spawnBullet s d) = none) := by
  refine ⟨fun s d => rfl, ?_, SkyPodScene.stepBullet_removed_iff, ?_, ?_⟩
  · intro sinking boatPos b b2 h
    obtain ⟨h1, h2, h3, _⟩ := SkyPodScene.stepBullet_alive sinking boatPos b b2 h
    exact ⟨h1, h2, h3⟩
  · intro sinking boatPos b p h
    refine ⟨?_, rfl⟩
    unfold SkyPodScene.stepBullet at h
    split at h
    · cases h; rfl
    · split at h
      · exact absurd h (by simp)
      · split at h
        · exact absurd h (by simp)
        · exact absurd h (by simp)
  · intro envs s d hlen
    apply SkyPodScene.iterateBullet_none envs (SkyPodScene.spawnBullet s d)
      (by norm_num [SkyPodScene.spawnBullet])
    have : (SkyPodScene.spawnBullet s d).life = 60 := rfl
    rw [this]
    exact_mod_cast hlen

/-- Witness for `bullet_lifecycle`: a freshly spawned bullet is gone after 60
frames over a distant non-sinking boat. -/
theorem bullet_lifecycle_witness :
    60 ≤ (List.replicate 60 ((false : Bool), (⟨1000, 0, 0⟩ : Vec3))).length
    ∧ SkyPodScene.iterateBullet
        (List.replicate 60 ((false : Bool), (⟨1000, 0, 0⟩ : Vec3)))
        (SkyPodScene.spawnBullet ⟨0, 10, 0⟩ ⟨1, 0, 0⟩) = none := by
  have hlen : 60 ≤ (List.replicate 60 ((false : Bool), (⟨1000, 0, 0⟩ : Vec3))).length := by
    simp
  exact ⟨hlen, bullet_lifecycle.2.2.2.2 _ _ _ hlen⟩

namespace SkyPodScene

theorem foldl_erase_not_mem_of_not_mem (l : List Nat) (s : Finset Nat) (m : Nat)
    (h : m ∉ s) : m ∉ l.foldl Finset.erase s := by
  induction l generalizing s with
  | nil => exact h
  | cons a t ih =>
      exact ih (s.erase a) (fun hc => h (Finset.mem_of_mem_erase hc))

theorem foldl_erase_not_mem (l : List Nat) (s : Finset Nat) (m : Nat)
    (h : m ∈ l) : m ∉ l.foldl Finset.erase s := by
  induction l generalizing s with
  | nil => cases h
  | cons a t ih =>
      rcases List.mem_cons.mp h with rfl | hmem
      · by_cases ht : m ∈ t
        · exact ih (s.erase m) ht
        · exact foldl_erase_not_mem_of_not_mem t (s.erase m) m
            (Finset.not_mem_erase m s)
      · exact ih (s.erase a) hmem

end SkyPodScene

/-- C7: the `SkyPodScene` teardown discards the transient animation state:
the cleanup removes every mesh in the `bullets` array and in the `particles`
array from the scene, cancels the pending animation frame, and disposes the
renderer. -/
theorem cleanup_discards_state (c : SkyPodScene.Component) :
    (∀ m : Nat, m ∈ c.bullets ∨ m ∈ c.particles →
        m ∉ (SkyPodScene.cleanup c).sceneMeshes)
    ∧ (SkyPodScene.cleanup c).framePending = false
    ∧ (SkyPodScene.cleanup c).rendererDisposed = true := by
  refine ⟨?_, rfl, rfl⟩
  intro m hm
  show m ∉ (c.bullets ++ c.particles).foldl Finset.erase c.sceneMeshes
  apply SkyPodScene.foldl_erase_not_mem
  rcases hm with h | h
  · exact List.mem_append_left _ h
  · exact List.mem_append_right _ h

/-- Witness for `cleanup_discards_state`: a concrete component whose bullet
mesh 1 is gone from the scene after cleanup. -/
theorem cleanup_discards_state_witness :
    ((1 : Nat) ∈ [1] ∨ (1 : Nat) ∈ [2])
    ∧ (1 : Nat) ∉ (SkyPodScene.cleanup
        { sceneMeshes := {1, 2, 3}, bullets := [1], particles := [2],
          framePending := true, rendererDisposed := false }).sceneMeshes :=
  ⟨Or.inl (by simp),
    (cleanup_discards_state _).1 1 (Or.inl (by simp))⟩

namespace SkyPodScene

theorem buildChecked_aux (ps : List (ℤ × ℤ × ℤ)) (st : BuildState)
    (h1 : st.meshes.Nodup) (h2 : ∀ p ∈ st.meshes, p ∈ st.occupied) :
    (ps.foldl (fun st p => addVoxelGeneric true p st) st).meshes.Nodup
    ∧ ∀ p ∈ (ps.foldl (fun st p => addVoxelGeneric true p st) st).meshes,
        p ∈ (ps.foldl (fun st p => addVoxelGeneric true p st) st).occupied := by
  induction ps generalizing st with
  | nil => exact ⟨h1, h2⟩
  | cons q rest ih =>
      simp only [List.foldl_cons]
      by_cases hq : q ∈ st.occupied
      · rw [show addVoxelGeneric true q st = st from by
          simp [addVoxelGeneric, hq]]
        exact ih st h1 h2
      · rw [show addVoxelGeneric true q st
            = { occupied := insert q st.occupied, meshes := st.meshes ++ [q] }
          from by simp [addVoxelGeneric, hq]]
        apply ih
        · rw [List.nodup_append]
          refine ⟨h1, List.nodup_singleton q, ?_⟩
          intro a ha hb
          simp only [List.mem_singleton] at hb
          subst hb
          exact hq (h2 a ha)
        · intro p hp
          simp only [List.mem_append, List.mem_singleton] at hp
          rcases hp with hp | rfl
          · exact Finset.mem_insert_of_mem (h2 p hp)
          · exact Finset.mem_insert_self p _

end SkyPodScene

/-- C9: during the occupancy-checked build phase (pylon columns, arms and
cable lines placed after `occupied.clear()`), at most one voxel mesh is added
per integer grid coordinate; `addVoxelGeneric` with `checkOccupied = true`
returns without adding a mesh when the coordinate key is already present, and
records the key otherwise. -/
theorem occupancy_unique (ps : List (ℤ × ℤ × ℤ)) :
    (∀ p : ℤ × ℤ × ℤ,
        Multiset.count p
          ((SkyPodScene.buildChecked ps).meshes : Multiset (ℤ × ℤ × ℤ)) ≤ 1)
    ∧ (∀ (p : ℤ × ℤ × ℤ) (st : SkyPodScene.BuildState), p ∈ st.occupied →
        SkyPodScene.addVoxelGeneric true p st = st)
    ∧ (∀ (p : ℤ × ℤ × ℤ) (st : SkyPodScene.BuildState), p ∉ st.occupied →
        (SkyPodScene.addVoxelGeneric true p st).occupied = insert p st.occupied
        ∧ (SkyPodScene.addVoxelGeneric true p st).meshes = st.meshes ++ [p]) := by
  refine ⟨?_, ?_, ?_⟩
  · intro p
    have h := SkyPodScene.buildChecked_aux ps
      { occupied := ∅, meshes := [] } (by simp) (by simp)
    have hn : ((SkyPodScene.buildChecked ps).meshes : Multiset (ℤ × ℤ × ℤ)).Nodup :=
      Multiset.coe_nodup.mpr h.1
    exact Multiset.nodup_iff_count_le_one.mp hn p
  · intro p st hp
    simp [SkyPodScene.addVoxelGeneric, hp]
  · intro p st hp
    constructor <;> simp [SkyPodScene.addVoxelGeneric, hp]

/-- Witness for `occupancy_unique`: placing the same coordinate twice adds
only one mesh. -/
theorem occupancy_unique_witness :
    ((0, 0, 0) : ℤ × ℤ × ℤ) ∉ (∅ : Finset (ℤ × ℤ × ℤ))
    ∧ Multiset.count ((0, 0, 0) : ℤ × ℤ × ℤ)
        ((SkyPodScene.buildChecked [(0, 0, 0), (0, 0, 0)]).meshes
          : Multiset (ℤ × ℤ × ℤ)) ≤ 1
    ∧ (SkyPodScene.addVoxelGeneric true (0, 0, 0)
          { occupied := {(0, 0, 0)}, meshes := [(0, 0, 0)] })
        = { occupied := {(0, 0, 0)}, meshes := [(0, 0, 0)] } :=
  ⟨by simp,
    (occupancy_unique [(0, 0, 0), (0, 0, 0)]).1 (0, 0, 0),
    (occupancy_unique []).2.1 (0, 0, 0) _ (by simp)⟩
